import Mathlib

set_option maxRecDepth 4000

/-!
Verification development for the c-log single-header logger
(src/src/c-log.h).  The record formatting and emission pipeline
(clog_write_prefix_, clog_emit_) and the per-thread timer table
(clogp_timer_start_, clogp_timer_end_) are embedded shallowly:
byte buffers become lists of byte values (Nat), the C formatted-print
calls become explicit byte-list writes with the exact snprintf cursor
arithmetic of the source, and the uint64 arithmetic of the hash and the
elapsed-time computation is carried out modulo 2^64.
-/

/-- Capacity of the per-thread line buffer, c-log.h line 26. -/
def CLOG_LINE_MAX : Nat := 1024

/-- Number of per-thread timer slots, c-log.h line 29. -/
def CLOG_TIMERS_MAX : Nat := 16

/-- Elapsed-time tier boundary: below this many ns the report shows ns (line 53). -/
def CLOG_TIMER_NS_MAX : Nat := 1000

/-- Elapsed-time tier boundary: below this many ns the report shows µs (line 56). -/
def CLOG_TIMER_US_MAX : Nat := 1000000

/-- Elapsed-time tier boundary: below this many ns the report shows ms, else s (line 59). -/
def CLOG_TIMER_MS_MAX : Nat := 1000000000

/-- Severity enumeration, c-log.h line 179:
TRACE = 0, DEBUG, INFO, WARN, ERROR, FATAL. -/
inductive clog_level where
  | TRACE
  | DEBUG
  | INFO
  | WARN
  | ERROR
  | FATAL
deriving DecidableEq

/-- Numeric value of a severity, as produced by the C enum (line 179). -/
def clog_level.toNat : clog_level → Nat
  | .TRACE => 0
  | .DEBUG => 1
  | .INFO => 2
  | .WARN => 3
  | .ERROR => 4
  | .FATAL => 5

/-- UTF-8 encoding of one code point, byte values as Nat. -/
def utf8Bytes (c : Nat) : List Nat :=
  if c < 128 then [c]
  else if c < 2048 then [192 + c / 64, 128 + c % 64]
  else if c < 65536 then [224 + c / 4096, 128 + c / 64 % 64, 128 + c % 64]
  else [240 + c / 262144, 128 + c / 4096 % 64, 128 + c / 64 % 64, 128 + c % 64]

/-- Byte list (UTF-8) of a string literal; C string contents are modelled
as lists of byte values. -/
def strB (s : String) : List Nat := (s.data.map (fun ch => utf8Bytes ch.toNat)).flatten

/-- Two to the sixty-fourth, the modulus of the C uint64_t arithmetic. -/
def U64 : Nat := 18446744073709551616

/-- FNV-1a hash of a label, c-log.h lines 442-449; uint64_t arithmetic
is modelled by reducing modulo 2^64 after the multiplication. -/
def clog_hash64_ (s : List Nat) : Nat :=
  s.foldl (fun h c => ((h ^^^ c) * 1099511628211) % U64) 1469598103934665603

/-- Wrap-around uint64_t subtraction a - b (both operands below 2^64),
as in the elapsed-time computation of line 644. -/
def clog_u64_sub (a b : Nat) : Nat := (U64 + a - b % U64) % U64

/-- Decimal digit bytes of n, least significant first; empty for 0. -/
def digitsRev (n : Nat) : List Nat :=
  if h : n = 0 then []
  else (n % 10 + 48) :: digitsRev (n / 10)
decreasing_by exact Nat.div_lt_self (Nat.pos_of_ne_zero h) (by omega)

/-- Decimal rendering of n as digit bytes, most significant first,
as produced by the C printf integer conversions. -/
def natDec (n : Nat) : List Nat :=
  if n = 0 then [48] else (digitsRev n).reverse

/-- Numeric value denoted by a list of decimal digit bytes. -/
def digitsVal (ds : List Nat) : Nat := ds.foldl (fun a d => a * 10 + (d - 48)) 0

/-- Zero-padded decimal rendering of n to width w digit bytes. -/
def padZ (w n : Nat) : List Nat := List.replicate (w - (natDec n).length) 48 ++ natDec n

/-- Fixed-point decimal rendering of the fraction num/den to decs decimal
places, rounding half away from zero.  This models the C printf
conversions %.3f and %.6f applied to (double)num / den in lines 648-656;
the doubles of the source are modelled as exact rationals. -/
def fmtFixed (decs num den : Nat) : List Nat :=
  let scaled := (num * 10 ^ decs * 2 + den) / (2 * den)
  natDec (scaled / 10 ^ decs) ++ [46] ++ padZ decs (scaled % 10 ^ decs)

/-- Write the byte list s into buf starting at position pos, overwriting
in place; models memcpy / the byte stores of snprintf into dst+pos. -/
def writeAt (buf : List Nat) (pos : Nat) (s : List Nat) : List Nat :=
  buf.take pos ++ s ++ buf.drop (pos + s.length)

/-- One step of the CLOG_APPEND macro, c-log.h lines 460-471: if the
cursor is inside the buffer, snprintf writes up to avail - 1 bytes of the
fragment s plus a NUL, and the cursor advances by min(r, avail - 1) when
the formatted length r is positive. -/
def CLOG_APPEND (cap : Nat) (st : List Nat × Nat) (s : List Nat) : List Nat × Nat :=
  if st.2 < cap then
    let avail := cap - st.2
    let r := s.length
    let buf2 := writeAt st.1 st.2 (s.take (avail - 1) ++ [0])
    let pos2 := if 0 < r then st.2 + (if r < avail then r else avail - 1) else st.2
    (buf2, pos2)
  else st

/-- Prefix composition, c-log.h lines 451-509.  Each element of frags is
the rendered text of one CLOG_APPEND call of the source (timestamp,
level tag, optional build tag, thread id, call-site, group); their exact
bytes depend on the external clock/identity adapter, so they are
parameters here.  The source returns cap when pos reached cap
(line 507), else pos. -/
def clog_write_prefix_ (cap : Nat) (buf0 : List Nat) (frags : List (List Nat)) :
    List Nat × Nat :=
  let st := frags.foldl (CLOG_APPEND cap) (buf0, 0)
  if cap ≤ st.2 then (st.1, cap) else st

/-- Message formatting step of clog_emit_, c-log.h lines 544-561:
vsnprintf writes up to avail - 1 message bytes plus a NUL; when the full
formatted length n meets or exceeds avail the cursor is pinned to
cap - 1 and the record is marked truncated. -/
def clog_compose_ (cap : Nat) (st : List Nat × Nat) (msg : List Nat) :
    List Nat × Nat × Bool :=
  if st.2 < cap then
    let avail := cap - st.2
    let n := msg.length
    let buf2 := writeAt st.1 st.2 (msg.take (avail - 1) ++ [0])
    if 0 < n then
      if avail ≤ n then (buf2, cap - 1, true) else (buf2, st.2 + n, false)
    else (buf2, st.2, false)
  else (st.1, st.2, false)

/-- Truncation marker step, c-log.h lines 563-568: when the record was
truncated and off + 3 < cap, memcpy the three marker bytes "..." and
advance the cursor. -/
def clog_trunc_mark_ (cap : Nat) (buf : List Nat) (off : Nat) (truncated : Bool) :
    List Nat × Nat :=
  if truncated = true ∧ off + 3 < cap then (writeAt buf off [46, 46, 46], off + 3)
  else (buf, off)

/-- Newline normalization, c-log.h lines 570-579: when the composed
content is empty or does not end in a newline byte, append one (plus a
NUL); when the buffer is exactly full, overwrite the last content byte
with the newline instead. -/
def clog_newline_ (cap : Nat) (buf : List Nat) (off : Nat) : List Nat × Nat :=
  if off = 0 ∨ buf.getD (off - 1) 0 ≠ 10 then
    if off + 1 < cap then ((buf.set off 10).set (off + 1) 0, off + 1)
    else ((buf.set (cap - 2) 10).set (cap - 1) 0, cap - 1)
  else (buf, off)

/-- Emission pipeline clog_emit_, c-log.h lines 533-594.  The threshold t
models clog_lvl_load_(); when the severity is below it the function
returns none immediately (line 536) with no buffer writes, no lock
acquisition and no write call.  Otherwise the emitted value is the byte
sequence passed to clog_write_all_ (buf, off): prefix composition,
message formatting, truncation marker, newline normalization.  The
descriptor write and the lock are external effects; the emitted bytes
are returned. -/
def clog_emit_ (t : Nat) (lvl : clog_level) (frags : List (List Nat)) (msg : List Nat)
    (buf0 : List Nat) : Option (List Nat) :=
  if lvl.toNat < t then none
  else
    let p := clog_write_prefix_ CLOG_LINE_MAX buf0 frags
    let c := clog_compose_ CLOG_LINE_MAX p msg
    let m := clog_trunc_mark_ CLOG_LINE_MAX c.1 c.2.1 c.2.2
    let f := clog_newline_ CLOG_LINE_MAX m.1 m.2
    some (f.1.take f.2)

/-- Buffer state (buf, off) after the four in-buffer stages of clog_emit_
(lines 541-579): prefix composition, message formatting, truncation
marker, newline normalization.  The pair is what clog_write_all_ receives
at line 583. -/
def clog_emit_stages_ (frags : List (List Nat)) (msg buf0 : List Nat) : List Nat × Nat :=
  let p := clog_write_prefix_ CLOG_LINE_MAX buf0 frags
  let c := clog_compose_ CLOG_LINE_MAX p msg
  let m := clog_trunc_mark_ CLOG_LINE_MAX c.1 c.2.1 c.2.2
  clog_newline_ CLOG_LINE_MAX m.1 m.2

/-- Timer slot, c-log.h lines 374-378. -/
structure clog_timer_slot_ where
  key : Nat
  t0 : Nat
  used : Bool
deriving DecidableEq

/-- Default slot value used for out-of-range reads. -/
def slot0 : clog_timer_slot_ := ⟨0, 0, false⟩

/-- Per-thread timer table g_timers, line 379: a fixed array of
CLOG_TIMERS_MAX slots, modelled as a list of that length. -/
abbrev TimerTable := List clog_timer_slot_

/-- Index of the first list element satisfying p, none if there is none;
models the first-match for loops of lines 611-620. -/
def findIdxFrom (p : α → Bool) : List α → Option Nat
  | [] => none
  | a :: as => if p a then some 0 else (findIdxFrom p as).map (· + 1)

/-- clog_timer_find_slot_, c-log.h lines 611-615: first occupied slot
whose key equals the argument (none models the C return value -1). -/
def clog_timer_find_slot_ (T : TimerTable) (key : Nat) : Option Nat :=
  findIdxFrom (fun s => s.used && s.key == key) T

/-- clog_timer_free_slot_, c-log.h lines 616-620: first unoccupied slot. -/
def clog_timer_free_slot_ (T : TimerTable) : Option Nat :=
  findIdxFrom (fun s => !s.used) T

/-- One call into the logging pipeline (clog_log_file_line_): severity,
optional group bytes, message bytes. -/
structure LogCall where
  lvl : clog_level
  group : Option (List Nat)
  msg : List Nat
deriving DecidableEq

/-- clogp_timer_start_, c-log.h lines 621-636: hash the label, reuse the
slot already holding that key, else take the first free slot; record
key, start time now, used = true.  With no slot available the table is
unchanged and a Warn-level "timer"-grouped slot-exhaustion report is
issued through clog_log_file_line_ (returned as a LogCall). -/
def clogp_timer_start_ (T : TimerTable) (label : List Nat) (now : Nat) :
    TimerTable × Option LogCall :=
  let key := clog_hash64_ label
  let idx := match clog_timer_find_slot_ T key with
    | some i => some i
    | none => clog_timer_free_slot_ T
  match idx with
  | some i => (T.set i ⟨key, now, true⟩, none)
  | none =>
      (T, some ⟨.WARN, some (strB "timer"), strB "no free timer slots (CLOG_TIMERS_MAX=16)"⟩)

/-- Elapsed-time report of clogp_timer_end_, c-log.h lines 646-657: the
unit tier is chosen by thresholding dt (nanoseconds) against the three
boundaries; the numeric text models printf %llu / %.3f / %.6f applied to
dt, dt/1e3, dt/1e6, dt/1e9 with the doubles taken as exact rationals. -/
def clog_timer_report_ (dt : Nat) (label : List Nat) : LogCall :=
  if dt < CLOG_TIMER_NS_MAX then
    ⟨.DEBUG, some (strB "timer"), strB "[" ++ natDec dt ++ strB " ns]: " ++ label⟩
  else if dt < CLOG_TIMER_US_MAX then
    ⟨.DEBUG, some (strB "timer"),
      strB "[" ++ fmtFixed 3 dt 1000 ++ strB " µs]: " ++ label⟩
  else if dt < CLOG_TIMER_MS_MAX then
    ⟨.DEBUG, some (strB "timer"),
      strB "[" ++ fmtFixed 3 dt 1000000 ++ strB " ms]: " ++ label⟩
  else
    ⟨.DEBUG, some (strB "timer"),
      strB "[" ++ fmtFixed 6 dt 1000000000 ++ strB " s]: " ++ label⟩

/-- clogp_timer_end_, c-log.h lines 637-658: hash the label; with no
matching occupied slot, return the table unchanged plus a Warn-level
"timer"-grouped unknown-label report.  Otherwise compute the elapsed
time in uint64 arithmetic, mark the slot free, and return the Debug
elapsed-time report. -/
def clogp_timer_end_ (T : TimerTable) (label : List Nat) (now : Nat) :
    TimerTable × LogCall :=
  let key := clog_hash64_ label
  match clog_timer_find_slot_ T key with
  | none =>
      (T, ⟨.WARN, some (strB "timer"), strB "end_time for unknown label: " ++ label⟩)
  | some i =>
      let sl := T.getD i slot0
      (T.set i ⟨sl.key, sl.t0, false⟩,
        clog_timer_report_ (clog_u64_sub now sl.t0) label)

/-- clogp_timer_end_ followed by the emission of its report through
clog_log_file_line_ / clog_vlog_file_line_ / clog_emit_ (source order:
the slot is freed at line 645, before the report is composed at lines
646-657).  t is the active threshold read by the emission gate. -/
def clog_timer_end_emit_ (t : Nat) (T : TimerTable) (label : List Nat) (now : Nat)
    (frags : List (List Nat)) (buf0 : List Nat) : TimerTable × Option (List Nat) :=
  let r := clogp_timer_end_ T label now
  (r.1, clog_emit_ t r.2.lvl frags r.2.msg buf0)

/-! Generic list lemmas about in-place writes, used by the buffer model. -/

lemma writeAt_length {buf s : List Nat} {pos : Nat} (h : pos + s.length ≤ buf.length) :
    (writeAt buf pos s).length = buf.length := by
  unfold writeAt
  simp [List.length_take, List.length_drop]
  omega

lemma take_writeAt {buf s : List Nat} {pos j : Nat} (hj : j ≤ s.length)
    (hp : pos ≤ buf.length) :
    (writeAt buf pos s).take (pos + j) = buf.take pos ++ s.take j := by
  unfold writeAt
  rw [List.append_assoc]
  have hA : (List.take pos buf).length = pos := by
    simp [List.length_take]; omega
  rw [show pos + j = (List.take pos buf).length + j by rw [hA]]
  rw [List.take_append]
  rw [List.take_append_of_le_length hj]

lemma getD_writeAt {buf s : List Nat} {pos k d : Nat} (hk : k < s.length)
    (h : pos + s.length ≤ buf.length) :
    (writeAt buf pos s).getD (pos + k) d = s.getD k d := by
  unfold writeAt
  rw [List.append_assoc, List.getD_eq_getElem?_getD, List.getD_eq_getElem?_getD]
  have hA : (List.take pos buf).length = pos := by
    simp [List.length_take]; omega
  rw [List.getElem?_append]
  rw [hA]
  rw [if_neg (by omega)]
  have : pos + k - pos = k := by omega
  rw [this]
  rw [List.getElem?_append]
  rw [if_pos hk]

lemma set_take_of_le {l : List Nat} {i j : Nat} {a : Nat} (h : j ≤ i) :
    (l.set i a).take j = l.take j := by
  apply List.ext_getElem?
  intro n
  rw [List.getElem?_take, List.getElem?_take]
  by_cases hn : n < j
  · rw [if_pos hn, if_pos hn, List.getElem?_set_ne (by omega)]
  · rw [if_neg hn, if_neg hn]

lemma take_set_succ {l : List Nat} {i : Nat} {a : Nat} (h : i < l.length) :
    (l.set i a).take (i + 1) = l.take i ++ [a] := by
  rw [List.take_succ, set_take_of_le (le_refl i), List.getElem?_set_self h]
  rfl

lemma take_append_take {p l : List Nat} {j k : Nat} (h : j ≤ p.length + k) :
    (p ++ l.take k).take j = (p ++ l).take j := by
  by_cases hj : j ≤ p.length
  · rw [List.take_append_of_le_length hj, List.take_append_of_le_length hj]
  · obtain ⟨m, hm, hmk⟩ : ∃ m, j = p.length + m ∧ m ≤ k := ⟨j - p.length, by omega, by omega⟩
    subst hm
    rw [List.take_append, List.take_append, List.take_take]
    congr 2
    exact inf_eq_left.mpr hmk

lemma take_succ_getD {l : List Nat} {i d : Nat} (h : i < l.length) :
    l.take (i + 1) = l.take i ++ [l.getD i d] := by
  rw [List.take_succ, List.getElem?_eq_getElem h, List.getD_eq_getElem l d h]
  rfl

lemma getD_set_self {α : Type} {l : List α} {i : Nat} {a d : α} (h : i < l.length) :
    (l.set i a).getD i d = a := by
  rw [List.getD_eq_getElem?_getD, List.getElem?_set_self h]
  rfl

/-! Invariants of the CLOG_APPEND cursor discipline (lines 460-471): every
append preserves the buffer length and keeps the cursor at most cap - 1,
so no prefix step ever writes past the remaining capacity. -/

lemma append_step_inv {cap : Nat} {st : List Nat × Nat} (hcap : 1 ≤ cap)
    (hb : st.1.length = cap) (ho : st.2 ≤ cap - 1) (s : List Nat) :
    (CLOG_APPEND cap st s).1.length = cap ∧ (CLOG_APPEND cap st s).2 ≤ cap - 1 := by
  have hlt : st.2 < cap := by omega
  unfold CLOG_APPEND
  rw [if_pos hlt]
  constructor
  · dsimp only
    rw [writeAt_length]
    · exact hb
    · have : (s.take (cap - st.2 - 1)).length ≤ cap - st.2 - 1 := by
        simp [List.length_take]
      simp only [List.length_append, List.length_cons, List.length_nil]
      omega
  · dsimp only
    split
    · split <;> omega
    · omega

lemma foldl_append_inv {cap : Nat} (hcap : 1 ≤ cap) (frags : List (List Nat)) :
    ∀ st : List Nat × Nat, st.1.length = cap → st.2 ≤ cap - 1 →
      (frags.foldl (CLOG_APPEND cap) st).1.length = cap ∧
      (frags.foldl (CLOG_APPEND cap) st).2 ≤ cap - 1 := by
  induction frags with
  | nil => intro st h1 h2; exact ⟨h1, h2⟩
  | cons f fs ih =>
      intro st h1 h2
      have h := append_step_inv hcap h1 h2 f
      exact ih _ h.1 h.2

lemma prefix_inv {cap : Nat} {buf0 : List Nat} (hcap : 1 ≤ cap)
    (hb : buf0.length = cap) (frags : List (List Nat)) :
    (clog_write_prefix_ cap buf0 frags).1.length = cap ∧
    (clog_write_prefix_ cap buf0 frags).2 ≤ cap - 1 := by
  unfold clog_write_prefix_
  have h := foldl_append_inv hcap frags (buf0, 0) hb (by omega)
  rw [if_neg (by omega)]
  exact h

/-! Characterization of the message-formatting step (lines 544-561). -/

lemma compose_inv {cap : Nat} {st : List Nat × Nat} {msg : List Nat} (hcap : 1 ≤ cap)
    (hb : st.1.length = cap) (ho : st.2 ≤ cap - 1) :
    (clog_compose_ cap st msg).1.length = cap ∧
    (clog_compose_ cap st msg).2.1 ≤ cap - 1 ∧
    (clog_compose_ cap st msg).1.getD (clog_compose_ cap st msg).2.1 0 = 0 := by
  have hlt : st.2 < cap := by omega
  unfold clog_compose_
  rw [if_pos hlt]
  dsimp only
  have hslen : (msg.take (cap - st.2 - 1) ++ [0]).length ≤ cap - st.2 := by
    simp [List.length_take]
    omega
  have hwlen : (writeAt st.1 st.2 (msg.take (cap - st.2 - 1) ++ [0])).length = cap := by
    rw [writeAt_length (by omega)]
    exact hb
  have hterm : ∀ k, k < (msg.take (cap - st.2 - 1) ++ [0]).length →
      (msg.take (cap - st.2 - 1) ++ [0]).getD k 0 = 0 →
      (writeAt st.1 st.2 (msg.take (cap - st.2 - 1) ++ [0])).getD (st.2 + k) 0 = 0 := by
    intro k hk hv
    rw [getD_writeAt hk (by omega)]
    exact hv
  by_cases hn : 0 < msg.length
  · rw [if_pos hn]
    by_cases htr : cap - st.2 ≤ msg.length
    · rw [if_pos htr]
      dsimp only
      refine ⟨hwlen, by omega, ?_⟩
      rw [show cap - 1 = st.2 + (cap - st.2 - 1) by omega]
      apply hterm
      · simp [List.length_take]; omega
      · have hlen2 : (msg.take (cap - st.2 - 1)).length = cap - st.2 - 1 := by
          simp [List.length_take]; omega
        rw [List.getD_eq_getElem?_getD, List.getElem?_append, hlen2, if_neg (by omega)]
        simp [hlen2]
    · rw [if_neg htr]
      dsimp only
      refine ⟨hwlen, by omega, ?_⟩
      have hlen2 : (msg.take (cap - st.2 - 1)).length = msg.length := by
        simp [List.length_take]; omega
      rw [show st.2 + msg.length = st.2 + msg.length by rfl]
      apply hterm
      · simp [List.length_take]; omega
      · rw [List.getD_eq_getElem?_getD, List.getElem?_append, hlen2, if_neg (by omega)]
        simp [hlen2]
  · rw [if_neg hn]
    dsimp only
    refine ⟨hwlen, by omega, ?_⟩
    have hmsg : msg = [] := List.eq_nil_of_length_eq_zero (by omega)
    subst hmsg
    have h0 := hterm 0 (by simp) (by simp [List.getD])
    simpa using h0

lemma compose_trunc {cap : Nat} {st : List Nat × Nat} {msg : List Nat}
    (hb : st.1.length = cap) (ho : st.2 ≤ cap - 1) (hcap : 1 ≤ cap)
    (htr : cap - st.2 ≤ msg.length) :
    (clog_compose_ cap st msg).2.1 = cap - 1 ∧
    (clog_compose_ cap st msg).2.2 = true ∧
    (clog_compose_ cap st msg).1.take (cap - 1) =
      st.1.take st.2 ++ msg.take (cap - st.2 - 1) := by
  have hlt : st.2 < cap := by omega
  have hn : 0 < msg.length := by omega
  unfold clog_compose_
  rw [if_pos hlt]
  dsimp only
  rw [if_pos hn, if_pos htr]
  dsimp only
  refine ⟨rfl, rfl, ?_⟩
  have htk : (msg.take (cap - st.2 - 1) ++ [0]).take (cap - st.2 - 1) =
      msg.take (cap - st.2 - 1) := by
    rw [List.take_append_of_le_length (by simp [List.length_take]; omega)]
    rw [List.take_take]
    simp
  have hw := @take_writeAt st.1 (msg.take (cap - st.2 - 1) ++ [0]) st.2 (cap - st.2 - 1)
    (by simp [List.length_take]; omega) (by omega)
  rw [show cap - 1 = st.2 + (cap - st.2 - 1) by omega, hw, htk]

lemma compose_fits {cap : Nat} {st : List Nat × Nat} {msg : List Nat}
    (hb : st.1.length = cap) (ho : st.2 ≤ cap - 1) (hcap : 1 ≤ cap)
    (hfit : msg.length < cap - st.2) :
    (clog_compose_ cap st msg).2.1 = st.2 + msg.length ∧
    (clog_compose_ cap st msg).2.2 = false ∧
    (clog_compose_ cap st msg).1.take (st.2 + msg.length) =
      st.1.take st.2 ++ msg := by
  have hlt : st.2 < cap := by omega
  unfold clog_compose_
  rw [if_pos hlt]
  dsimp only
  have hmtk : msg.take (cap - st.2 - 1) = msg := List.take_of_length_le (by omega)
  have hj : msg.length ≤ (msg.take (cap - st.2 - 1) ++ [0]).length := by
    rw [hmtk]
    simp
  have hp : st.2 ≤ st.1.length := by omega
  have hw := take_writeAt hj hp
  have htk : (msg.take (cap - st.2 - 1) ++ [0]).take msg.length = msg := by
    rw [hmtk, List.take_append_of_le_length (by simp)]
    simp
  rw [htk] at hw
  by_cases hn : 0 < msg.length
  · rw [if_pos hn, if_neg (show ¬ cap - st.2 ≤ msg.length by omega)]
    dsimp only
    exact ⟨rfl, rfl, hw⟩
  · rw [if_neg hn]
    dsimp only
    have hmsg : msg = [] := List.eq_nil_of_length_eq_zero (by omega)
    subst hmsg
    refine ⟨by simp, rfl, ?_⟩
    simpa using hw

lemma compose_flag {cap : Nat} {st : List Nat × Nat} {msg : List Nat}
    (hb : st.1.length = cap) (ho : st.2 ≤ cap - 1) (hcap : 1 ≤ cap) :
    (clog_compose_ cap st msg).2.2 = true → (clog_compose_ cap st msg).2.1 = cap - 1 := by
  intro hflag
  by_cases htr : cap - st.2 ≤ msg.length
  · exact (compose_trunc hb ho hcap htr).1
  · have := (@compose_fits cap st msg hb ho hcap (by omega)).2.1
    rw [this] at hflag
    cases hflag

/-! The truncation marker step is the identity on every state the
composition step can produce: on truncation the cursor is already at
cap - 1, so off + 3 < cap never holds (lines 563-568). -/

lemma mark_skip {cap : Nat} {buf : List Nat} {off : Nat} {tr : Bool} (hcap : 1 ≤ cap)
    (hoff : tr = true → off = cap - 1) :
    clog_trunc_mark_ cap buf off tr = (buf, off) := by
  unfold clog_trunc_mark_
  rw [if_neg]
  rintro ⟨h1, h2⟩
  rw [hoff h1] at h2
  omega

/-! Characterization of the newline normalization step (lines 570-579). -/

lemma newline_noop {cap : Nat} {buf : List Nat} {off : Nat} (h0 : off ≠ 0)
    (h10 : buf.getD (off - 1) 0 = 10) :
    clog_newline_ cap buf off = (buf, off) := by
  unfold clog_newline_
  rw [if_neg]
  push_neg
  exact ⟨h0, h10⟩

lemma newline_append {cap : Nat} {buf : List Nat} {off : Nat}
    (hcond : off = 0 ∨ buf.getD (off - 1) 0 ≠ 10) (hlt : off + 1 < cap)
    (hb : buf.length = cap) :
    (clog_newline_ cap buf off).2 = off + 1 ∧
    (clog_newline_ cap buf off).1.take (off + 1) = buf.take off ++ [10] := by
  unfold clog_newline_
  rw [if_pos hcond, if_pos hlt]
  dsimp only
  refine ⟨rfl, ?_⟩
  rw [set_take_of_le (le_refl (off + 1))]
  exact take_set_succ (by omega)

lemma newline_full {cap : Nat} {buf : List Nat} {off : Nat}
    (hcond : off = 0 ∨ buf.getD (off - 1) 0 ≠ 10) (hge : ¬ off + 1 < cap)
    (hb : buf.length = cap) (hcap : 2 ≤ cap) :
    (clog_newline_ cap buf off).2 = cap - 1 ∧
    (clog_newline_ cap buf off).1.take (cap - 1) = buf.take (cap - 2) ++ [10] := by
  unfold clog_newline_
  rw [if_pos hcond, if_neg hge]
  dsimp only
  refine ⟨rfl, ?_⟩
  rw [set_take_of_le (by omega)]
  rw [show cap - 1 = (cap - 2) + 1 by omega]
  exact take_set_succ (by omega)

lemma newline_ends {cap : Nat} {buf : List Nat} {off : Nat} (hb : buf.length = cap)
    (hoff : off ≤ cap - 1) (hcap : 2 ≤ cap) :
    ∃ u, (clog_newline_ cap buf off).1.take (clog_newline_ cap buf off).2 = u ++ [10] := by
  by_cases hcond : off = 0 ∨ buf.getD (off - 1) 0 ≠ 10
  · by_cases hlt : off + 1 < cap
    · have h := newline_append hcond hlt hb
      exact ⟨buf.take off, by rw [h.1, h.2]⟩
    · have h := newline_full hcond hlt hb hcap
      exact ⟨buf.take (cap - 2), by rw [h.1, h.2]⟩
  · push_neg at hcond
    rw [newline_noop hcond.1 hcond.2]
    dsimp only
    refine ⟨buf.take (off - 1), ?_⟩
    rw [show off = (off - 1) + 1 by omega, take_succ_getD (d := 0) (by omega)]
    rw [show off - 1 + 1 - 1 = off - 1 by omega, hcond.2]

lemma newline_inv {cap : Nat} {buf : List Nat} {off : Nat} (hb : buf.length = cap)
    (hoff : off ≤ cap - 1) (hcap : 2 ≤ cap) (hterm : buf.getD off 0 = 0) :
    (clog_newline_ cap buf off).1.length = cap ∧
    (clog_newline_ cap buf off).2 ≤ cap - 1 ∧
    (clog_newline_ cap buf off).1.getD (clog_newline_ cap buf off).2 0 = 0 := by
  unfold clog_newline_
  by_cases hcond : off = 0 ∨ buf.getD (off - 1) 0 ≠ 10
  · rw [if_pos hcond]
    by_cases hlt : off + 1 < cap
    · rw [if_pos hlt]
      dsimp only
      refine ⟨by simp [hb], by omega, ?_⟩
      exact getD_set_self (by simp [hb]; omega)
    · rw [if_neg hlt]
      dsimp only
      refine ⟨by simp [hb], by omega, ?_⟩
      exact getD_set_self (by simp [hb]; omega)
  · rw [if_neg hcond]
    exact ⟨hb, hoff, hterm⟩

/-! Pipeline-level facts about clog_emit_. -/

lemma emit_eq_some {t : Nat} {lvl : clog_level} {frags : List (List Nat)}
    {msg buf0 : List Nat} (hlvl : t ≤ lvl.toNat) :
    clog_emit_ t lvl frags msg buf0 =
      some (let p := clog_write_prefix_ CLOG_LINE_MAX buf0 frags
            let c := clog_compose_ CLOG_LINE_MAX p msg
            let m := clog_trunc_mark_ CLOG_LINE_MAX c.1 c.2.1 c.2.2
            let f := clog_newline_ CLOG_LINE_MAX m.1 m.2
            f.1.take f.2) := by
  unfold clog_emit_
  rw [if_neg (by omega)]

lemma capacity_pos : (2 : Nat) ≤ CLOG_LINE_MAX := by
  unfold CLOG_LINE_MAX
  omega

lemma emit_pipeline {t : Nat} {lvl : clog_level} {frags : List (List Nat)}
    {msg buf0 : List Nat} (hb : buf0.length = CLOG_LINE_MAX) (hlvl : t ≤ lvl.toNat) :
    clog_emit_ t lvl frags msg buf0 =
      some ((clog_newline_ CLOG_LINE_MAX
              (clog_compose_ CLOG_LINE_MAX (clog_write_prefix_ CLOG_LINE_MAX buf0 frags) msg).1
              (clog_compose_ CLOG_LINE_MAX (clog_write_prefix_ CLOG_LINE_MAX buf0 frags) msg).2.1).1.take
            (clog_newline_ CLOG_LINE_MAX
              (clog_compose_ CLOG_LINE_MAX (clog_write_prefix_ CLOG_LINE_MAX buf0 frags) msg).1
              (clog_compose_ CLOG_LINE_MAX (clog_write_prefix_ CLOG_LINE_MAX buf0 frags) msg).2.1).2) := by
  have hcap : (1 : Nat) ≤ CLOG_LINE_MAX := by
    have := capacity_pos
    omega
  have hp := prefix_inv hcap hb frags
  have hc := @compose_inv CLOG_LINE_MAX _ msg hcap hp.1 hp.2
  have hm := @mark_skip CLOG_LINE_MAX
    (clog_compose_ CLOG_LINE_MAX (clog_write_prefix_ CLOG_LINE_MAX buf0 frags) msg).1
    (clog_compose_ CLOG_LINE_MAX (clog_write_prefix_ CLOG_LINE_MAX buf0 frags) msg).2.1
    (clog_compose_ CLOG_LINE_MAX (clog_write_prefix_ CLOG_LINE_MAX buf0 frags) msg).2.2
    hcap (@compose_flag CLOG_LINE_MAX _ msg hp.1 hp.2 hcap)
  rw [emit_eq_some hlvl]
  simp only [hm]

lemma emit_ends_newline {t : Nat} {lvl : clog_level} {frags : List (List Nat)}
    {msg buf0 e : List Nat} (hb : buf0.length = CLOG_LINE_MAX)
    (h : clog_emit_ t lvl frags msg buf0 = some e) : ∃ u, e = u ++ [10] := by
  have hcap2 := capacity_pos
  have hcap : (1 : Nat) ≤ CLOG_LINE_MAX := by omega
  have hlvl : t ≤ lvl.toNat := by
    by_contra hc
    unfold clog_emit_ at h
    rw [if_pos (by omega)] at h
    cases h
  rw [emit_pipeline hb hlvl] at h
  have hp := prefix_inv hcap hb frags
  have hc := @compose_inv CLOG_LINE_MAX _ msg hcap hp.1 hp.2
  obtain ⟨u, hu⟩ := newline_ends hc.1 hc.2.1 hcap2
  exact ⟨u, by rw [← hu]; exact (Option.some_inj.mp h).symm⟩

lemma emit_bounds {t : Nat} {lvl : clog_level} {frags : List (List Nat)}
    {msg buf0 e : List Nat} (hb : buf0.length = CLOG_LINE_MAX)
    (h : clog_emit_ t lvl frags msg buf0 = some e) : e.length ≤ CLOG_LINE_MAX - 1 := by
  have hcap2 := capacity_pos
  have hcap : (1 : Nat) ≤ CLOG_LINE_MAX := by omega
  have hlvl : t ≤ lvl.toNat := by
    by_contra hc
    unfold clog_emit_ at h
    rw [if_pos (by omega)] at h
    cases h
  rw [emit_pipeline hb hlvl] at h
  have hp := prefix_inv hcap hb frags
  have hc := @compose_inv CLOG_LINE_MAX _ msg hcap hp.1 hp.2
  have hn := newline_inv hc.1 hc.2.1 hcap2 hc.2.2
  have he : e = (clog_newline_ CLOG_LINE_MAX
      (clog_compose_ CLOG_LINE_MAX (clog_write_prefix_ CLOG_LINE_MAX buf0 frags) msg).1
      (clog_compose_ CLOG_LINE_MAX (clog_write_prefix_ CLOG_LINE_MAX buf0 frags) msg).2.1).1.take
      (clog_newline_ CLOG_LINE_MAX
      (clog_compose_ CLOG_LINE_MAX (clog_write_prefix_ CLOG_LINE_MAX buf0 frags) msg).1
      (clog_compose_ CLOG_LINE_MAX (clog_write_prefix_ CLOG_LINE_MAX buf0 frags) msg).2.1).2 :=
    (Option.some_inj.mp h).symm
  rw [he]
  simp [List.length_take]
  left
  omega

lemma emit_trunc_spec {t : Nat} {lvl : clog_level} {frags : List (List Nat)}
    {msg buf0 : List Nat} (hb : buf0.length = CLOG_LINE_MAX) (hlvl : t ≤ lvl.toNat)
    (htr : CLOG_LINE_MAX - (clog_write_prefix_ CLOG_LINE_MAX buf0 frags).2 ≤ msg.length) :
    clog_emit_ t lvl frags msg buf0 =
      some ((((clog_write_prefix_ CLOG_LINE_MAX buf0 frags).1.take
               (clog_write_prefix_ CLOG_LINE_MAX buf0 frags).2 ++ msg).take
             (CLOG_LINE_MAX - 2)) ++ [10]) := by
  have hcap2 := capacity_pos
  have hcap : (1 : Nat) ≤ CLOG_LINE_MAX := by omega
  have hp := prefix_inv hcap hb frags
  have hct := @compose_trunc CLOG_LINE_MAX _ msg hp.1 hp.2 hcap htr
  have hci := @compose_inv CLOG_LINE_MAX _ msg hcap hp.1 hp.2
  rw [emit_pipeline hb hlvl]
  congr 1
  set P := clog_write_prefix_ CLOG_LINE_MAX buf0 frags with hP
  set C := clog_compose_ CLOG_LINE_MAX P msg with hC
  have hPlen : (P.1.take P.2).length = P.2 := by
    simp [List.length_take]
    omega
  have hCtake2 : C.1.take (CLOG_LINE_MAX - 2) =
      (P.1.take P.2 ++ msg).take (CLOG_LINE_MAX - 2) := by
    have h1 : C.1.take (CLOG_LINE_MAX - 2) = (C.1.take (CLOG_LINE_MAX - 1)).take (CLOG_LINE_MAX - 2) := by
      rw [List.take_take, inf_eq_left.mpr (show CLOG_LINE_MAX - 2 ≤ CLOG_LINE_MAX - 1 by omega)]
    rw [h1, hct.2.2]
    have h2 : (P.1.take P.2 ++ msg.take (CLOG_LINE_MAX - P.2 - 1)).take (CLOG_LINE_MAX - 2) =
        (P.1.take P.2 ++ msg).take (CLOG_LINE_MAX - 2) := by
      apply take_append_take
      rw [hPlen]
      omega
    exact h2
  by_cases hlast : C.1.getD (C.2.1 - 1) 0 = 10
  · have hnoop := @newline_noop CLOG_LINE_MAX _ _ (by rw [hct.1]; omega) hlast
    rw [hnoop]
    dsimp only
    rw [hct.1]
    have h3 : C.1.take (CLOG_LINE_MAX - 1) =
        C.1.take (CLOG_LINE_MAX - 2) ++ [C.1.getD (CLOG_LINE_MAX - 2) 0] := by
      rw [show CLOG_LINE_MAX - 1 = (CLOG_LINE_MAX - 2) + 1 by omega]
      exact take_succ_getD (by rw [hci.1]; omega)
    have hlast2 : C.1.getD (CLOG_LINE_MAX - 2) 0 = 10 := by
      have : C.2.1 - 1 = CLOG_LINE_MAX - 2 := by rw [hct.1]; omega
      rw [← this]
      exact hlast
    rw [h3, hlast2, hCtake2]
  · have hfull := @newline_full CLOG_LINE_MAX C.1 C.2.1
      (Or.inr hlast) (by rw [hct.1]; omega) hci.1 hcap2
    rw [hfull.1, hfull.2, hCtake2]

/-! Decimal-rendering lemmas: the digit strings produced by the model of
the printf conversions denote exactly the intended values. -/

lemma digitsVal_snoc (ds : List Nat) (d : Nat) :
    digitsVal (ds ++ [d]) = digitsVal ds * 10 + (d - 48) := by
  unfold digitsVal
  rw [List.foldl_append]
  rfl

lemma digitsVal_digitsRev_reverse (n : Nat) : digitsVal (digitsRev n).reverse = n := by
  induction n using Nat.strong_induction_on with
  | _ n ih =>
      by_cases h : n = 0
      · subst h
        rw [digitsRev]
        simp [digitsVal]
      · rw [digitsRev]
        rw [dif_neg h]
        rw [List.reverse_cons, digitsVal_snoc]
        rw [ih (n / 10) (Nat.div_lt_self (Nat.pos_of_ne_zero h) (by omega))]
        omega

lemma digitsVal_natDec (n : Nat) : digitsVal (natDec n) = n := by
  unfold natDec
  by_cases h : n = 0
  · subst h
    simp [digitsVal]
  · rw [if_neg h]
    exact digitsVal_digitsRev_reverse n

lemma digitsRev_digits {n d : Nat} (h : d ∈ digitsRev n) : 48 ≤ d ∧ d ≤ 57 := by
  induction n using Nat.strong_induction_on with
  | _ n ih =>
      by_cases h0 : n = 0
      · subst h0
        rw [digitsRev] at h
        simp at h
      · rw [digitsRev, dif_neg h0] at h
        rcases List.mem_cons.mp h with h1 | h2
        · have : n % 10 < 10 := Nat.mod_lt _ (by omega)
          omega
        · exact ih (n / 10) (Nat.div_lt_self (Nat.pos_of_ne_zero h0) (by omega)) h2

lemma natDec_digits {n d : Nat} (h : d ∈ natDec n) : 48 ≤ d ∧ d ≤ 57 := by
  unfold natDec at h
  by_cases h0 : n = 0
  · rw [if_pos h0] at h
    simp at h
    omega
  · rw [if_neg h0] at h
    exact digitsRev_digits (List.mem_reverse.mp h)

lemma digitsRev_length_le {n w : Nat} (h : n < 10 ^ w) : (digitsRev n).length ≤ w := by
  induction w generalizing n with
  | zero =>
      have : n = 0 := by simpa using h
      subst this
      rw [digitsRev]
      simp
  | succ w ih =>
      by_cases h0 : n = 0
      · subst h0
        rw [digitsRev]
        simp
      · rw [digitsRev, dif_neg h0]
        have hdiv : n / 10 < 10 ^ w := by
          rw [Nat.div_lt_iff_lt_mul (by omega)]
          calc n < 10 ^ (w + 1) := h
            _ = 10 ^ w * 10 := by ring
        simpa using ih hdiv

lemma natDec_length_le {n w : Nat} (h : n < 10 ^ w) (hw : 1 ≤ w) :
    (natDec n).length ≤ w := by
  unfold natDec
  by_cases h0 : n = 0
  · rw [if_pos h0]
    simpa using hw
  · rw [if_neg h0]
    simpa using digitsRev_length_le h

lemma padZ_length {n w : Nat} (h : n < 10 ^ w) (hw : 1 ≤ w) : (padZ w n).length = w := by
  unfold padZ
  have := natDec_length_le h hw
  simp [List.length_replicate]
  omega

lemma digitsVal_leading_zeros (k : Nat) (ds : List Nat) :
    digitsVal (List.replicate k 48 ++ ds) = digitsVal ds := by
  induction k with
  | zero => simp
  | succ k ih =>
      rw [List.replicate_succ, List.cons_append]
      unfold digitsVal at *
      simpa using ih

lemma digitsVal_padZ {n w : Nat} : digitsVal (padZ w n) = n := by
  unfold padZ
  rw [digitsVal_leading_zeros, digitsVal_natDec]

lemma padZ_digits {n w d : Nat} (h : d ∈ padZ w n) : 48 ≤ d ∧ d ≤ 57 := by
  unfold padZ at h
  rcases List.mem_append.mp h with h1 | h2
  · have := List.eq_of_mem_replicate h1
    omega
  · exact natDec_digits h2

lemma fmtFixed_spec (decs num den : Nat) (hdecs : 1 ≤ decs) :
    ∃ ip fp, fmtFixed decs num den = ip ++ [46] ++ fp ∧ fp.length = decs ∧
      digitsVal ip = (num * 10 ^ decs * 2 + den) / (2 * den) / 10 ^ decs ∧
      digitsVal fp = (num * 10 ^ decs * 2 + den) / (2 * den) % 10 ^ decs ∧
      (∀ d ∈ ip, 48 ≤ d ∧ d ≤ 57) ∧ (∀ d ∈ fp, 48 ≤ d ∧ d ≤ 57) := by
  refine ⟨natDec ((num * 10 ^ decs * 2 + den) / (2 * den) / 10 ^ decs),
    padZ decs ((num * 10 ^ decs * 2 + den) / (2 * den) % 10 ^ decs), rfl, ?_, ?_, ?_, ?_, ?_⟩
  · exact padZ_length (Nat.mod_lt _ (Nat.pos_pow_of_pos decs (by omega))) hdecs
  · exact digitsVal_natDec _
  · exact digitsVal_padZ
  · intro d hd
    exact natDec_digits hd
  · intro d hd
    exact padZ_digits hd

/-! First-match scan lemmas for the timer-table loops (lines 611-620). -/

lemma findIdxFrom_eq_none {α : Type} {p : α → Bool} {l : List α}
    (h : findIdxFrom p l = none) : ∀ x ∈ l, p x = false := by
  induction l with
  | nil => intro x hx; simp at hx
  | cons a as ih =>
      unfold findIdxFrom at h
      by_cases hpa : p a = true
      · rw [if_pos hpa] at h
        cases h
      · rw [if_neg hpa] at h
        intro x hx
        rcases List.mem_cons.mp hx with h1 | h2
        · subst h1
          simpa using hpa
        · cases hfa : findIdxFrom p as with
          | some i => rw [hfa] at h; cases h
          | none => exact ih hfa x h2

lemma findIdxFrom_some_spec {α : Type} {p : α → Bool} {l : List α} {i : Nat}
    (h : findIdxFrom p l = some i) (d : α) :
    i < l.length ∧ p (l.getD i d) = true ∧ ∀ j, j < i → p (l.getD j d) = false := by
  induction l generalizing i with
  | nil => cases h
  | cons a as ih =>
      unfold findIdxFrom at h
      by_cases hpa : p a = true
      · rw [if_pos hpa] at h
        have hi : i = 0 := by
          cases h
          rfl
        subst hi
        refine ⟨by simp, by simpa using hpa, ?_⟩
        intro j hj
        omega
      · rw [if_neg hpa] at h
        cases hfa : findIdxFrom p as with
        | none => rw [hfa] at h; cases h
        | some i0 =>
            rw [hfa] at h
            have hii : i = i0 + 1 := by
              cases h
              rfl
            subst hii
            obtain ⟨hlt, hpi, hmin⟩ := ih hfa
            refine ⟨by simp; omega, by simpa using hpi, ?_⟩
            intro j hj
            cases j with
            | zero => simpa using hpa
            | succ j0 => simpa using hmin j0 (by omega)

lemma findIdxFrom_of {α : Type} {p : α → Bool} {l : List α} {i : Nat} (d : α)
    (hi : i < l.length) (hp : p (l.getD i d) = true)
    (hmin : ∀ j, j < i → p (l.getD j d) = false) : findIdxFrom p l = some i := by
  induction l generalizing i with
  | nil => simp at hi
  | cons a as ih =>
      unfold findIdxFrom
      cases i with
      | zero =>
          rw [if_pos (by simpa using hp)]
      | succ i0 =>
          have hpa : p a = false := by simpa using hmin 0 (by omega)
          rw [if_neg (by simp [hpa])]
          have hrec : findIdxFrom p as = some i0 := by
            apply ih (by simpa using hi) (by simpa using hp)
            intro j hj
            simpa using hmin (j + 1) (by omega)
          rw [hrec]
          rfl

/-! Timer-table helper lemmas. -/

lemma getD_set_ne {α : Type} {l : List α} {i j : Nat} {a d : α} (h : j ≠ i) :
    (l.set i a).getD j d = l.getD j d := by
  rw [List.getD_eq_getElem?_getD, List.getD_eq_getElem?_getD, List.getElem?_set_ne (by omega)]

lemma slotMatch (key : Nat) (s : clog_timer_slot_) :
    ((fun s : clog_timer_slot_ => s.used && s.key == key) s = true) ↔
      (s.used = true ∧ s.key = key) := by
  simp

lemma start_of_found {T : TimerTable} {label : List Nat} {now i : Nat}
    (hf : clog_timer_find_slot_ T (clog_hash64_ label) = some i) :
    clogp_timer_start_ T label now = (T.set i ⟨clog_hash64_ label, now, true⟩, none) := by
  unfold clogp_timer_start_
  dsimp only
  rw [hf]

lemma start_of_free {T : TimerTable} {label : List Nat} {now f : Nat}
    (hf : clog_timer_find_slot_ T (clog_hash64_ label) = none)
    (hfr : clog_timer_free_slot_ T = some f) :
    clogp_timer_start_ T label now = (T.set f ⟨clog_hash64_ label, now, true⟩, none) := by
  unfold clogp_timer_start_
  dsimp only
  rw [hf, hfr]

lemma start_of_exhausted {T : TimerTable} {label : List Nat} {now : Nat}
    (hf : clog_timer_find_slot_ T (clog_hash64_ label) = none)
    (hfr : clog_timer_free_slot_ T = none) :
    clogp_timer_start_ T label now =
      (T, some ⟨.WARN, some (strB "timer"), strB "no free timer slots (CLOG_TIMERS_MAX=16)"⟩) := by
  unfold clogp_timer_start_
  dsimp only
  rw [hf, hfr]

lemma find_set_self {T : TimerTable} {key now i : Nat}
    (hf : clog_timer_find_slot_ T key = some i ∨
      (clog_timer_find_slot_ T key = none ∧ clog_timer_free_slot_ T = some i)) :
    clog_timer_find_slot_ (T.set i ⟨key, now, true⟩) key = some i := by
  have hlen : i < T.length := by
    rcases hf with h | ⟨h1, h2⟩
    · exact (findIdxFrom_some_spec h slot0).1
    · exact (findIdxFrom_some_spec h2 slot0).1
  apply findIdxFrom_of slot0
  · simpa using hlen
  · rw [getD_set_self hlen]
    simp
  · intro j hj
    rw [getD_set_ne (by omega)]
    rcases hf with h | ⟨h1, h2⟩
    · exact (findIdxFrom_some_spec h slot0).2.2 j hj
    · have hmem : T.getD j slot0 ∈ T := by
        rw [List.getD_eq_getElem T slot0 (by omega)]
        exact List.getElem_mem _
      have := findIdxFrom_eq_none h1 _ hmem
      exact this

lemma start_recorded {T : TimerTable} {label : List Nat} {now : Nat}
    (hrec : (clogp_timer_start_ T label now).2 = none) :
    ∃ i, i < T.length ∧
      clogp_timer_start_ T label now = (T.set i ⟨clog_hash64_ label, now, true⟩, none) ∧
      clog_timer_find_slot_ (T.set i ⟨clog_hash64_ label, now, true⟩)
        (clog_hash64_ label) = some i := by
  cases hf : clog_timer_find_slot_ T (clog_hash64_ label) with
  | some i =>
      exact ⟨i, (findIdxFrom_some_spec hf slot0).1, start_of_found hf,
        find_set_self (Or.inl hf)⟩
  | none =>
      cases hfr : clog_timer_free_slot_ T with
      | some f =>
          exact ⟨f, (findIdxFrom_some_spec hfr slot0).1, start_of_free hf hfr,
            find_set_self (Or.inr ⟨hf, hfr⟩)⟩
      | none =>
          rw [start_of_exhausted hf hfr] at hrec
          cases hrec

lemma end_of_found {T : TimerTable} {label : List Nat} {now i : Nat}
    (hf : clog_timer_find_slot_ T (clog_hash64_ label) = some i) :
    clogp_timer_end_ T label now =
      (T.set i ⟨(T.getD i slot0).key, (T.getD i slot0).t0, false⟩,
        clog_timer_report_ (clog_u64_sub now (T.getD i slot0).t0) label) := by
  unfold clogp_timer_end_
  dsimp only
  rw [hf]

lemma end_of_missing {T : TimerTable} {label : List Nat} {now : Nat}
    (hf : clog_timer_find_slot_ T (clog_hash64_ label) = none) :
    clogp_timer_end_ T label now =
      (T, ⟨.WARN, some (strB "timer"), strB "end_time for unknown label: " ++ label⟩) := by
  unfold clogp_timer_end_
  dsimp only
  rw [hf]

lemma report_lvl (dt : Nat) (label : List Nat) :
    (clog_timer_report_ dt label).lvl = .DEBUG := by
  unfold clog_timer_report_
  split
  · rfl
  · split
    · rfl
    · split
      · rfl
      · rfl

lemma report_group (dt : Nat) (label : List Nat) :
    (clog_timer_report_ dt label).group = some (strB "timer") := by
  unfold clog_timer_report_
  split
  · rfl
  · split
    · rfl
    · split
      · rfl
      · rfl

lemma stages_char {frags : List (List Nat)} {msg buf0 : List Nat}
    (hb : buf0.length = CLOG_LINE_MAX) :
    clog_emit_stages_ frags msg buf0 =
      clog_newline_ CLOG_LINE_MAX
        (clog_compose_ CLOG_LINE_MAX (clog_write_prefix_ CLOG_LINE_MAX buf0 frags) msg).1
        (clog_compose_ CLOG_LINE_MAX (clog_write_prefix_ CLOG_LINE_MAX buf0 frags) msg).2.1 := by
  have hcap : (1 : Nat) ≤ CLOG_LINE_MAX := by
    have := capacity_pos
    omega
  have hp := prefix_inv hcap hb frags
  unfold clog_emit_stages_
  dsimp only
  rw [mark_skip hcap (@compose_flag CLOG_LINE_MAX _ msg hp.1 hp.2 hcap)]

lemma start_length (T : TimerTable) (label : List Nat) (now : Nat) :
    (clogp_timer_start_ T label now).1.length = T.length := by
  cases hf : clog_timer_find_slot_ T (clog_hash64_ label) with
  | some i =>
      rw [start_of_found hf]
      exact List.length_set T i _
  | none =>
      cases hfr : clog_timer_free_slot_ T with
      | some f =>
          rw [start_of_free hf hfr]
          exact List.length_set T f _
      | none =>
          rw [start_of_exhausted hf hfr]

lemma end_length (T : TimerTable) (label : List Nat) (now : Nat) :
    (clogp_timer_end_ T label now).1.length = T.length := by
  cases hf : clog_timer_find_slot_ T (clog_hash64_ label) with
  | some i =>
      rw [end_of_found hf]
      exact List.length_set T i _
  | none =>
      rw [end_of_missing hf]

lemma not_infix_of_not_mem {l : List Nat} (h : ¬ 46 ∈ l) : ¬ [46, 46, 46] <:+: l := by
  rintro ⟨s, u, hsu⟩
  apply h
  rw [← hsu]
  simp

lemma us_scaled (dt : Nat) : (dt * 10 ^ 3 * 2 + 1000) / (2 * 1000) = dt := by
  have h : dt * 10 ^ 3 * 2 + 1000 = 2000 * dt + 1000 := by ring
  rw [h, show (2 * 1000 : Nat) = 2000 by norm_num, Nat.mul_add_div (by omega)]
  norm_num

lemma ms_scaled (dt : Nat) : (dt * 10 ^ 3 * 2 + 1000000) / (2 * 1000000) = (dt + 500) / 1000 := by
  have h : dt * 10 ^ 3 * 2 + 1000000 = 2000 * (dt + 500) := by ring
  have h2 : (2 * 1000000 : Nat) = 2000 * 1000 := by norm_num
  rw [h, h2, Nat.mul_div_mul_left _ _ (by omega)]

lemma s_scaled (dt : Nat) : (dt * 10 ^ 6 * 2 + 1000000000) / (2 * 1000000000) = (dt + 500) / 1000 := by
  have h : dt * 10 ^ 6 * 2 + 1000000000 = 2000000 * (dt + 500) := by ring
  have h2 : (2 * 1000000000 : Nat) = 2000000 * 1000 := by norm_num
  rw [h, h2, Nat.mul_div_mul_left _ _ (by omega)]

/-! Claim theorems. -/

/-- C1: for every severity s and active threshold t, a log call at
severity s emits a record if and only if s >= t; when s is below the
threshold clog_emit_ is the immediate-return none (line 536), which in
the source performs no buffer write, acquires no lock and issues no
write call. -/
theorem claim_C1_emission_gate (t : Nat) (lvl : clog_level) (frags : List (List Nat))
    (msg buf0 : List Nat) :
    ((clog_emit_ t lvl frags msg buf0).isSome ↔ t ≤ lvl.toNat) ∧
    (clog_emit_ t lvl frags msg buf0 = none ↔ lvl.toNat < t) := by
  unfold clog_emit_
  by_cases h : lvl.toNat < t
  · rw [if_pos h]
    simp
    omega
  · rw [if_neg h]
    simp
    omega

/-- Witness for C1: at threshold Warn an Info call emits nothing, and at
threshold Info it emits a record. -/
theorem claim_C1_witness :
    clog_emit_ 3 clog_level.INFO [[65]] [66] (List.replicate 1024 0) = none ∧
    (clog_emit_ 2 clog_level.INFO [[65]] [66] (List.replicate 1024 0)).isSome := by
  constructor
  · exact (claim_C1_emission_gate 3 clog_level.INFO [[65]] [66] (List.replicate 1024 0)).2.mpr
      (by decide)
  · exact (claim_C1_emission_gate 2 clog_level.INFO [[65]] [66] (List.replicate 1024 0)).1.mpr
      (by decide)

/-- C4: for every prefix-fragment list, message and buffer, the pipeline
never writes past the buffer capacity: the prefix cursor stays at most
CLOG_LINE_MAX - 1 and the buffer keeps its length through every append
step; the final (buf, off) state handed to the write has off at most
CLOG_LINE_MAX - 1, an unchanged buffer length, and a NUL terminator at
position off; hence every emitted byte count is at most the capacity. -/
theorem claim_C4_bounded_composition (frags : List (List Nat)) (msg buf0 : List Nat)
    (hb : buf0.length = CLOG_LINE_MAX) :
    (clog_write_prefix_ CLOG_LINE_MAX buf0 frags).2 ≤ CLOG_LINE_MAX - 1 ∧
    (clog_write_prefix_ CLOG_LINE_MAX buf0 frags).1.length = CLOG_LINE_MAX ∧
    (clog_emit_stages_ frags msg buf0).2 ≤ CLOG_LINE_MAX - 1 ∧
    (clog_emit_stages_ frags msg buf0).1.length = CLOG_LINE_MAX ∧
    (clog_emit_stages_ frags msg buf0).1.getD (clog_emit_stages_ frags msg buf0).2 0 = 0 ∧
    (∀ t lvl e, clog_emit_ t lvl frags msg buf0 = some e → e.length ≤ CLOG_LINE_MAX - 1) := by
  have hcap2 := capacity_pos
  have hcap : (1 : Nat) ≤ CLOG_LINE_MAX := by omega
  have hp := prefix_inv hcap hb frags
  have hc := @compose_inv CLOG_LINE_MAX _ msg hcap hp.1 hp.2
  have hn := newline_inv hc.1 hc.2.1 hcap2 hc.2.2
  rw [stages_char hb]
  exact ⟨hp.2, hp.1, hn.2.1, hn.1, hn.2.2, fun t lvl e he => emit_bounds hb he⟩

/-- Witness for C4 at a concrete buffer, fragment list and message. -/
theorem claim_C4_witness :
    (List.replicate 1024 (0 : Nat)).length = CLOG_LINE_MAX ∧
    ((clog_write_prefix_ CLOG_LINE_MAX (List.replicate 1024 0) [[65]]).2 ≤ CLOG_LINE_MAX - 1 ∧
     (clog_write_prefix_ CLOG_LINE_MAX (List.replicate 1024 0) [[65]]).1.length = CLOG_LINE_MAX ∧
     (clog_emit_stages_ [[65]] [66] (List.replicate 1024 0)).2 ≤ CLOG_LINE_MAX - 1 ∧
     (clog_emit_stages_ [[65]] [66] (List.replicate 1024 0)).1.length = CLOG_LINE_MAX ∧
     (clog_emit_stages_ [[65]] [66] (List.replicate 1024 0)).1.getD
       (clog_emit_stages_ [[65]] [66] (List.replicate 1024 0)).2 0 = 0 ∧
     (∀ t lvl e, clog_emit_ t lvl [[65]] [66] (List.replicate 1024 0) = some e →
        e.length ≤ CLOG_LINE_MAX - 1)) :=
  ⟨by simp [CLOG_LINE_MAX],
   claim_C4_bounded_composition [[65]] [66] (List.replicate 1024 0) (by simp [CLOG_LINE_MAX])⟩

/-- C3: every emitted byte sequence ends in a newline: the normalization
step appends exactly one newline when the composed content does not end
in one, leaves the content untouched (never duplicating) when it does,
and when the buffer is exactly full overwrites the last content byte
with the newline; at the pipeline level every record clog_emit_ produces
ends with a newline byte. -/
theorem claim_C3_newline_normalization (cap : Nat) (buf : List Nat) (off : Nat)
    (hb : buf.length = cap) (hoff : off ≤ cap - 1) (hcap : 2 ≤ cap) :
    (off ≠ 0 → buf.getD (off - 1) 0 = 10 → clog_newline_ cap buf off = (buf, off)) ∧
    ((off = 0 ∨ buf.getD (off - 1) 0 ≠ 10) → off + 1 < cap →
       (clog_newline_ cap buf off).2 = off + 1 ∧
       (clog_newline_ cap buf off).1.take (off + 1) = buf.take off ++ [10]) ∧
    ((off = 0 ∨ buf.getD (off - 1) 0 ≠ 10) → ¬ off + 1 < cap →
       (clog_newline_ cap buf off).2 = cap - 1 ∧
       (clog_newline_ cap buf off).1.take (cap - 1) = buf.take (cap - 2) ++ [10]) ∧
    (∃ u, (clog_newline_ cap buf off).1.take (clog_newline_ cap buf off).2 = u ++ [10]) ∧
    (∀ t lvl frags msg buf0 e, buf0.length = CLOG_LINE_MAX →
       clog_emit_ t lvl frags msg buf0 = some e → ∃ u, e = u ++ [10]) :=
  ⟨fun h0 h10 => newline_noop h0 h10,
   fun hc hl => newline_append hc hl hb,
   fun hc hg => newline_full hc hg hb hcap,
   newline_ends hb hoff hcap,
   fun _ _ _ _ _ _ hb0 he => emit_ends_newline hb0 he⟩

/-- Witness for C3 at a small concrete buffer state. -/
theorem claim_C3_witness :
    ([65, 66, 67, 48] : List Nat).length = 4 ∧ (3 : Nat) ≤ 4 - 1 ∧ (2 : Nat) ≤ 4 ∧
    ((3 ≠ 0 → ([65, 66, 67, 48] : List Nat).getD (3 - 1) 0 = 10 →
        clog_newline_ 4 [65, 66, 67, 48] 3 = ([65, 66, 67, 48], 3)) ∧
     ((3 = 0 ∨ ([65, 66, 67, 48] : List Nat).getD (3 - 1) 0 ≠ 10) → 3 + 1 < 4 →
        (clog_newline_ 4 [65, 66, 67, 48] 3).2 = 3 + 1 ∧
        (clog_newline_ 4 [65, 66, 67, 48] 3).1.take (3 + 1) =
          ([65, 66, 67, 48] : List Nat).take 3 ++ [10]) ∧
     ((3 = 0 ∨ ([65, 66, 67, 48] : List Nat).getD (3 - 1) 0 ≠ 10) → ¬ 3 + 1 < 4 →
        (clog_newline_ 4 [65, 66, 67, 48] 3).2 = 4 - 1 ∧
        (clog_newline_ 4 [65, 66, 67, 48] 3).1.take (4 - 1) =
          ([65, 66, 67, 48] : List Nat).take (4 - 2) ++ [10]) ∧
     (∃ u, (clog_newline_ 4 [65, 66, 67, 48] 3).1.take
        (clog_newline_ 4 [65, 66, 67, 48] 3).2 = u ++ [10]) ∧
     (∀ t lvl frags msg buf0 e, buf0.length = CLOG_LINE_MAX →
        clog_emit_ t lvl frags msg buf0 = some e → ∃ u, e = u ++ [10])) :=
  ⟨by decide, by decide, by decide,
   claim_C3_newline_normalization 4 [65, 66, 67, 48] 3 (by decide) (by decide) (by decide)⟩

/-- C2 counterexample: a message long enough to be truncated (its length
meets the remaining capacity after the prefix) whose emitted line does
not contain the 3-byte truncation marker "..." anywhere: in the source
the marker branch requires off + 3 < cap, but truncation has already
pinned off to cap - 1, so the marker is never inserted. -/
theorem claim_C2_counterexample :
    clog_emit_ 0 clog_level.INFO [[88]] (List.replicate 1100 97) (List.replicate 1024 0) =
      some ([88] ++ List.replicate 1021 97 ++ [10]) ∧
    CLOG_LINE_MAX - (clog_write_prefix_ CLOG_LINE_MAX (List.replicate 1024 0) [[88]]).2 ≤
      (List.replicate 1100 (97 : Nat)).length ∧
    ¬ [46, 46, 46] <:+: ([88] ++ List.replicate 1021 97 ++ [10]) := by
  have hoff : (clog_write_prefix_ CLOG_LINE_MAX (List.replicate 1024 0) [[88]]).2 = 1 := rfl
  have hP : (clog_write_prefix_ CLOG_LINE_MAX (List.replicate 1024 0) [[88]]).1.take
      (clog_write_prefix_ CLOG_LINE_MAX (List.replicate 1024 0) [[88]]).2 = [88] := rfl
  have htr : CLOG_LINE_MAX - (clog_write_prefix_ CLOG_LINE_MAX (List.replicate 1024 0) [[88]]).2 ≤
      (List.replicate 1100 (97 : Nat)).length := by
    rw [hoff]
    simp [CLOG_LINE_MAX]
  have hmem : ¬ (46 : Nat) ∈ [88] ++ List.replicate 1021 97 ++ [10] := by
    intro h
    rcases List.mem_append.mp h with h1 | h2
    · rcases List.mem_append.mp h1 with h3 | h4
      · exact absurd (List.mem_singleton.mp h3) (by omega)
      · exact absurd (List.eq_of_mem_replicate h4) (by omega)
    · exact absurd (List.mem_singleton.mp h2) (by omega)
  refine ⟨?_, htr, not_infix_of_not_mem hmem⟩
  have hspec := @emit_trunc_spec 0 clog_level.INFO [[88]]
    (List.replicate 1100 97) (List.replicate 1024 0)
    (by simp [CLOG_LINE_MAX]) (by simp [clog_level.toNat]) htr
  have h1 : List.take 1021 (List.replicate 1100 (97 : Nat)) = List.replicate 1021 97 := by
    rw [List.take_replicate]
    rw [inf_eq_left.mpr (by omega : (1021 : Nat) ≤ 1100)]
  have h2 : List.take (CLOG_LINE_MAX - 2) ([88] ++ List.replicate 1100 (97 : Nat)) =
      [88] ++ List.replicate 1021 97 := by
    rw [show CLOG_LINE_MAX - 2 = ([88] : List Nat).length + 1021 from by norm_num [CLOG_LINE_MAX]]
    rw [List.take_append, h1]
  rw [hspec, hP, h2]

/-- C2 as amended: when the formatted message length meets or exceeds the
remaining capacity, the emitted line has length exactly
CLOG_LINE_MAX - 1 and ends in a newline byte, and its bytes before the
final newline are exactly the prefix followed by the truncated message
content -- no truncation marker is inserted, because after truncation the
cursor sits at CLOG_LINE_MAX - 1, leaving no room for the marker. -/
theorem claim_C2_truncated_line (t : Nat) (lvl : clog_level) (frags : List (List Nat))
    (msg buf0 : List Nat) (hb : buf0.length = CLOG_LINE_MAX) (hlvl : t ≤ lvl.toNat)
    (htr : CLOG_LINE_MAX - (clog_write_prefix_ CLOG_LINE_MAX buf0 frags).2 ≤ msg.length) :
    ∃ e, clog_emit_ t lvl frags msg buf0 = some e ∧
      e.length = CLOG_LINE_MAX - 1 ∧ (∃ u, e = u ++ [10]) ∧
      e.take (CLOG_LINE_MAX - 2) =
        ((clog_write_prefix_ CLOG_LINE_MAX buf0 frags).1.take
          (clog_write_prefix_ CLOG_LINE_MAX buf0 frags).2 ++ msg).take (CLOG_LINE_MAX - 2) := by
  have hcap2 := capacity_pos
  have hcap : (1 : Nat) ≤ CLOG_LINE_MAX := by omega
  have hp := prefix_inv hcap hb frags
  set P := clog_write_prefix_ CLOG_LINE_MAX buf0 frags with hPdef
  set A := (P.1.take P.2 ++ msg).take (CLOG_LINE_MAX - 2) with hAdef
  have hPlen : (P.1.take P.2).length = P.2 := by
    simp [List.length_take]
    omega
  have hAlen : A.length = CLOG_LINE_MAX - 2 := by
    rw [hAdef, List.length_take, List.length_append, hPlen]
    exact inf_eq_left.mpr (by omega)
  refine ⟨A ++ [10], emit_trunc_spec hb hlvl htr, ?_, ⟨A, rfl⟩, ?_⟩
  · rw [List.length_append, hAlen]
    simp
    omega
  · rw [List.take_append_of_le_length (le_of_eq hAlen.symm)]
    rw [List.take_of_length_le (le_of_eq hAlen)]

/-- Witness for the amended C2 at a concrete truncating input. -/
theorem claim_C2_witness :
    (List.replicate 1024 (0 : Nat)).length = CLOG_LINE_MAX ∧
    CLOG_LINE_MAX - (clog_write_prefix_ CLOG_LINE_MAX (List.replicate 1024 0) [[89]]).2 ≤
      (List.replicate 1100 (97 : Nat)).length ∧
    (∃ e, clog_emit_ 0 clog_level.INFO [[89]] (List.replicate 1100 97)
        (List.replicate 1024 0) = some e ∧
      e.length = CLOG_LINE_MAX - 1 ∧ (∃ u, e = u ++ [10]) ∧
      e.take (CLOG_LINE_MAX - 2) =
        ((clog_write_prefix_ CLOG_LINE_MAX (List.replicate 1024 0) [[89]]).1.take
          (clog_write_prefix_ CLOG_LINE_MAX (List.replicate 1024 0) [[89]]).2 ++
            List.replicate 1100 97).take (CLOG_LINE_MAX - 2)) :=
  ⟨by simp [CLOG_LINE_MAX],
   by
     rw [show (clog_write_prefix_ CLOG_LINE_MAX (List.replicate 1024 0) [[89]]).2 = 1 from rfl]
     simp [CLOG_LINE_MAX],
   claim_C2_truncated_line 0 clog_level.INFO [[89]] (List.replicate 1100 97)
     (List.replicate 1024 0) (by simp [CLOG_LINE_MAX]) (by simp [clog_level.toNat])
     (by
       rw [show (clog_write_prefix_ CLOG_LINE_MAX (List.replicate 1024 0) [[89]]).2 = 1 from rfl]
       simp [CLOG_LINE_MAX])⟩

/-- C5: when a slot already holds the key of the label, timer-start
overwrites that slot in place (key, fresh start time, still used),
reports no error, leaves every slot's occupancy unchanged, and start
followed by start leaves the same table as the single later start. -/
theorem claim_C5_restart_semantics (T : TimerTable) (label : List Nat) (now1 now2 i : Nat)
    (hf : clog_timer_find_slot_ T (clog_hash64_ label) = some i) :
    clogp_timer_start_ T label now2 =
      (T.set i ⟨clog_hash64_ label, now2, true⟩, none) ∧
    (∀ j, ((T.set i ⟨clog_hash64_ label, now2, true⟩).getD j slot0).used =
      ((T.getD j slot0).used)) ∧
    (clogp_timer_start_ (clogp_timer_start_ T label now1).1 label now2).1 =
      (clogp_timer_start_ T label now2).1 := by
  obtain ⟨hlen, hmatch, hmin⟩ := findIdxFrom_some_spec hf slot0
  have hused : (T.getD i slot0).used = true := by
    rw [List.getD_eq_getElem?_getD] at hmatch ⊢
    simp at hmatch
    exact hmatch.1
  refine ⟨start_of_found hf, ?_, ?_⟩
  · intro j
    by_cases hj : j = i
    · subst hj
      rw [getD_set_self hlen, hused]
    · rw [getD_set_ne hj]
  · rw [@start_of_found T label now1 i hf]
    dsimp only
    have hf2 : clog_timer_find_slot_ (T.set i ⟨clog_hash64_ label, now1, true⟩)
        (clog_hash64_ label) = some i := find_set_self (Or.inl hf)
    rw [start_of_found hf2, start_of_found hf]
    dsimp only
    rw [List.set_set]

/-- Witness for C5: a one-slot table already holding the label's key. -/
theorem claim_C5_witness :
    clog_timer_find_slot_ [⟨clog_hash64_ (strB "x"), 5, true⟩] (clog_hash64_ (strB "x")) =
      some 0 ∧
    (clogp_timer_start_ [⟨clog_hash64_ (strB "x"), 5, true⟩] (strB "x") 7 =
      ([⟨clog_hash64_ (strB "x"), 5, true⟩].set 0 ⟨clog_hash64_ (strB "x"), 7, true⟩, none) ∧
     (∀ j, (([⟨clog_hash64_ (strB "x"), 5, true⟩].set 0
         ⟨clog_hash64_ (strB "x"), 7, true⟩).getD j slot0).used =
       (([⟨clog_hash64_ (strB "x"), 5, true⟩] : TimerTable).getD j slot0).used) ∧
     (clogp_timer_start_ (clogp_timer_start_ [⟨clog_hash64_ (strB "x"), 5, true⟩]
         (strB "x") 6).1 (strB "x") 7).1 =
       (clogp_timer_start_ [⟨clog_hash64_ (strB "x"), 5, true⟩] (strB "x") 7).1) :=
  ⟨by decide,
   claim_C5_restart_semantics [⟨clog_hash64_ (strB "x"), 5, true⟩] (strB "x") 6 7 0 (by decide)⟩

/-- C6: the timer table is a fixed array of CLOG_TIMERS_MAX slots, so the
occupied-slot count never exceeds CLOG_TIMERS_MAX and both operations
preserve the table length; and when no slot matches and no slot is free,
timer-start leaves the table unchanged and issues a Warn-level
"timer"-grouped slot-exhaustion report instead of recording a timer. -/
theorem claim_C6_slot_bound (T : TimerTable) (label : List Nat) (now : Nat)
    (hlen : T.length = CLOG_TIMERS_MAX)
    (hfind : clog_timer_find_slot_ T (clog_hash64_ label) = none)
    (hfree : clog_timer_free_slot_ T = none) :
    (clogp_timer_start_ T label now).1 = T ∧
    (clogp_timer_start_ T label now).2 =
      some ⟨.WARN, some (strB "timer"), strB "no free timer slots (CLOG_TIMERS_MAX=16)"⟩ ∧
    (∀ T2 l2 n2, T2.length = CLOG_TIMERS_MAX →
       (clogp_timer_start_ T2 l2 n2).1.length = CLOG_TIMERS_MAX ∧
       (clogp_timer_end_ T2 l2 n2).1.length = CLOG_TIMERS_MAX ∧
       (clogp_timer_start_ T2 l2 n2).1.countP (fun s => s.used) ≤ CLOG_TIMERS_MAX ∧
       (clogp_timer_end_ T2 l2 n2).1.countP (fun s => s.used) ≤ CLOG_TIMERS_MAX) := by
  rw [start_of_exhausted hfind hfree]
  refine ⟨rfl, rfl, ?_⟩
  intro T2 l2 n2 hlen2
  have hs : (clogp_timer_start_ T2 l2 n2).1.length = CLOG_TIMERS_MAX := by
    rw [start_length]
    exact hlen2
  have he : (clogp_timer_end_ T2 l2 n2).1.length = CLOG_TIMERS_MAX := by
    rw [end_length]
    exact hlen2
  exact ⟨hs, he, hs ▸ List.countP_le_length _, he ▸ List.countP_le_length _⟩

/-- Witness for C6: a full 16-slot table with keys that cannot match the
label's hash. -/
theorem claim_C6_witness :
    (List.replicate 16 (⟨0, 0, true⟩ : clog_timer_slot_)).length = CLOG_TIMERS_MAX ∧
    clog_timer_find_slot_ (List.replicate 16 ⟨0, 0, true⟩) (clog_hash64_ (strB "x")) = none ∧
    clog_timer_free_slot_ (List.replicate 16 ⟨0, 0, true⟩) = none ∧
    (clogp_timer_start_ (List.replicate 16 ⟨0, 0, true⟩) (strB "x") 3).1 =
      List.replicate 16 ⟨0, 0, true⟩ ∧
    (clogp_timer_start_ (List.replicate 16 ⟨0, 0, true⟩) (strB "x") 3).2 =
      some ⟨.WARN, some (strB "timer"), strB "no free timer slots (CLOG_TIMERS_MAX=16)"⟩ :=
  ⟨by decide, by decide, by decide,
   (claim_C6_slot_bound (List.replicate 16 ⟨0, 0, true⟩) (strB "x") 3
     (by decide) (by decide) (by decide)).1,
   (claim_C6_slot_bound (List.replicate 16 ⟨0, 0, true⟩) (strB "x") 3
     (by decide) (by decide) (by decide)).2.1⟩

/-- C7: ending a label with no matching occupied slot leaves the timer
table completely unchanged and produces a Warn-level "timer"-grouped
report whose message contains "unknown label" -- a log record through the
normal pipeline, never an error and never a slot mutation. -/
theorem claim_C7_unknown_label (T : TimerTable) (label : List Nat) (now : Nat)
    (hf : clog_timer_find_slot_ T (clog_hash64_ label) = none) :
    (clogp_timer_end_ T label now).1 = T ∧
    (clogp_timer_end_ T label now).2.lvl = .WARN ∧
    (clogp_timer_end_ T label now).2.group = some (strB "timer") ∧
    strB "unknown label" <:+: (clogp_timer_end_ T label now).2.msg := by
  rw [end_of_missing hf]
  refine ⟨rfl, rfl, rfl, ?_⟩
  refine ⟨strB "end_time for ", strB ": " ++ label, ?_⟩
  have hconst : strB "end_time for " ++ strB "unknown label" ++ strB ": " =
      strB "end_time for unknown label: " := by decide
  rw [← hconst]
  simp

/-- Witness for C7: ending a label on an empty table. -/
theorem claim_C7_witness :
    clog_timer_find_slot_ ([] : TimerTable) (clog_hash64_ (strB "x")) = none ∧
    ((clogp_timer_end_ ([] : TimerTable) (strB "x") 3).1 = ([] : TimerTable) ∧
     (clogp_timer_end_ ([] : TimerTable) (strB "x") 3).2.lvl = .WARN ∧
     (clogp_timer_end_ ([] : TimerTable) (strB "x") 3).2.group = some (strB "timer") ∧
     strB "unknown label" <:+: (clogp_timer_end_ ([] : TimerTable) (strB "x") 3).2.msg) :=
  ⟨by decide, claim_C7_unknown_label [] (strB "x") 3 (by decide)⟩

/-- C8: for every matched timer-end, the report is the Debug-level
"timer"-grouped record produced by clog_timer_report_ on the elapsed
nanoseconds, and for every elapsed value dt the report message is
"[UNIT]: label" with the unit tier selected by thresholding dt against
the three boundaries: below 1000 ns a whole-integer nanosecond count;
below 10^6 ns microseconds with exactly 3 decimals (value dt/1000 and
remainder dt%1000); below 10^9 ns milliseconds with exactly 3 decimals;
otherwise seconds with exactly 6 decimals (the %.3f/%.6f doubles of the
source modelled as exact rationals, rounded half away from zero to
microseconds). -/
theorem claim_C8_unit_tiers (T : TimerTable) (label : List Nat) (now i : Nat)
    (hf : clog_timer_find_slot_ T (clog_hash64_ label) = some i) :
    (clogp_timer_end_ T label now).2 =
      clog_timer_report_ (clog_u64_sub now ((T.getD i slot0).t0)) label ∧
    ∀ dt lbl, (clog_timer_report_ dt lbl).lvl = .DEBUG ∧
      (clog_timer_report_ dt lbl).group = some (strB "timer") ∧
      (dt < CLOG_TIMER_NS_MAX →
        ∃ ds, (clog_timer_report_ dt lbl).msg = strB "[" ++ ds ++ strB " ns]: " ++ lbl ∧
          digitsVal ds = dt ∧ ∀ d ∈ ds, 48 ≤ d ∧ d ≤ 57) ∧
      (CLOG_TIMER_NS_MAX ≤ dt → dt < CLOG_TIMER_US_MAX →
        ∃ ip fp, (clog_timer_report_ dt lbl).msg =
            strB "[" ++ (ip ++ [46] ++ fp) ++ strB " µs]: " ++ lbl ∧
          fp.length = 3 ∧ digitsVal ip = dt / 1000 ∧ digitsVal fp = dt % 1000 ∧
          (∀ d ∈ ip, 48 ≤ d ∧ d ≤ 57) ∧ (∀ d ∈ fp, 48 ≤ d ∧ d ≤ 57)) ∧
      (CLOG_TIMER_US_MAX ≤ dt → dt < CLOG_TIMER_MS_MAX →
        ∃ ip fp, (clog_timer_report_ dt lbl).msg =
            strB "[" ++ (ip ++ [46] ++ fp) ++ strB " ms]: " ++ lbl ∧
          fp.length = 3 ∧ digitsVal ip * 1000 + digitsVal fp = (dt + 500) / 1000 ∧
          (∀ d ∈ ip, 48 ≤ d ∧ d ≤ 57) ∧ (∀ d ∈ fp, 48 ≤ d ∧ d ≤ 57)) ∧
      (CLOG_TIMER_MS_MAX ≤ dt →
        ∃ ip fp, (clog_timer_report_ dt lbl).msg =
            strB "[" ++ (ip ++ [46] ++ fp) ++ strB " s]: " ++ lbl ∧
          fp.length = 6 ∧ digitsVal ip * 1000000 + digitsVal fp = (dt + 500) / 1000 ∧
          (∀ d ∈ ip, 48 ≤ d ∧ d ≤ 57) ∧ (∀ d ∈ fp, 48 ≤ d ∧ d ≤ 57)) := by
  constructor
  · rw [end_of_found hf]
  · intro dt lbl
    refine ⟨report_lvl dt lbl, report_group dt lbl, ?_, ?_, ?_, ?_⟩
    · intro h
      unfold clog_timer_report_
      rw [if_pos h]
      exact ⟨natDec dt, rfl, digitsVal_natDec dt, fun d hd => natDec_digits hd⟩
    · intro h1 h2
      unfold clog_timer_report_
      rw [if_neg (by simp only [CLOG_TIMER_NS_MAX, CLOG_TIMER_US_MAX, CLOG_TIMER_MS_MAX] at h1 ⊢; omega), if_pos h2]
      obtain ⟨ip, fp, heq, hlen, hip, hfp, hipd, hfpd⟩ := fmtFixed_spec 3 dt 1000 (by omega)
      rw [us_scaled dt] at hip hfp
      refine ⟨ip, fp, ?_, hlen, ?_, ?_, hipd, hfpd⟩
      · dsimp only
        rw [heq]
      · rw [hip]
        norm_num
      · rw [hfp]
        norm_num
    · intro h1 h2
      unfold clog_timer_report_
      rw [if_neg (by simp only [CLOG_TIMER_NS_MAX, CLOG_TIMER_US_MAX, CLOG_TIMER_MS_MAX] at h1 ⊢; omega),
        if_neg (by simp only [CLOG_TIMER_NS_MAX, CLOG_TIMER_US_MAX, CLOG_TIMER_MS_MAX] at h1 ⊢; omega), if_pos h2]
      obtain ⟨ip, fp, heq, hlen, hip, hfp, hipd, hfpd⟩ := fmtFixed_spec 3 dt 1000000 (by omega)
      rw [ms_scaled dt] at hip hfp
      refine ⟨ip, fp, ?_, hlen, ?_, hipd, hfpd⟩
      · dsimp only
        rw [heq]
      · rw [hip, hfp]
        have h10 : (10 : Nat) ^ 3 = 1000 := by norm_num
        rw [h10]
        omega
    · intro h1
      unfold clog_timer_report_
      rw [if_neg (by simp only [CLOG_TIMER_NS_MAX, CLOG_TIMER_US_MAX, CLOG_TIMER_MS_MAX] at h1 ⊢; omega),
        if_neg (by simp only [CLOG_TIMER_NS_MAX, CLOG_TIMER_US_MAX, CLOG_TIMER_MS_MAX] at h1 ⊢; omega),
        if_neg (by simp only [CLOG_TIMER_NS_MAX, CLOG_TIMER_US_MAX, CLOG_TIMER_MS_MAX] at h1 ⊢; omega)]
      obtain ⟨ip, fp, heq, hlen, hip, hfp, hipd, hfpd⟩ := fmtFixed_spec 6 dt 1000000000 (by omega)
      rw [s_scaled dt] at hip hfp
      refine ⟨ip, fp, ?_, hlen, ?_, hipd, hfpd⟩
      · dsimp only
        rw [heq]
      · rw [hip, hfp]
        have h10 : (10 : Nat) ^ 6 = 1000000 := by norm_num
        rw [h10]
        omega

/-- Witness for C8: one occupied slot, elapsed 500 ns. -/
theorem claim_C8_witness :
    clog_timer_find_slot_ [⟨clog_hash64_ (strB "x"), 100, true⟩] (clog_hash64_ (strB "x")) =
      some 0 ∧
    (clogp_timer_end_ [⟨clog_hash64_ (strB "x"), 100, true⟩] (strB "x") 600).2 =
      clog_timer_report_
        (clog_u64_sub 600 ((([⟨clog_hash64_ (strB "x"), 100, true⟩] : TimerTable).getD 0
          slot0).t0)) (strB "x") :=
  ⟨by decide,
   (claim_C8_unit_tiers [⟨clog_hash64_ (strB "x"), 100, true⟩] (strB "x") 600 0 (by decide)).1⟩

/-- C9: timer slots are matched by the 64-bit FNV-1a hash of the label
alone: whenever two labels have equal hashes, a start with the first
label followed by an end with the second finds the very slot the start
recorded, frees it, and reports an elapsed time measured from the first
label's start timestamp. -/
theorem claim_C9_hash_only_matching (T : TimerTable) (l1 l2 : List Nat) (n1 n2 : Nat)
    (hh : clog_hash64_ l1 = clog_hash64_ l2)
    (hrec : (clogp_timer_start_ T l1 n1).2 = none) :
    ∃ i, clog_timer_find_slot_ ((clogp_timer_start_ T l1 n1).1) (clog_hash64_ l2) = some i ∧
      (((clogp_timer_start_ T l1 n1).1).getD i slot0).t0 = n1 ∧
      (clogp_timer_end_ ((clogp_timer_start_ T l1 n1).1) l2 n2).1 =
        ((clogp_timer_start_ T l1 n1).1).set i ⟨clog_hash64_ l1, n1, false⟩ ∧
      (clogp_timer_end_ ((clogp_timer_start_ T l1 n1).1) l2 n2).2 =
        clog_timer_report_ (clog_u64_sub n2 n1) l2 := by
  obtain ⟨i, hlen, hstart, hfind⟩ := start_recorded hrec
  have hT1 : (clogp_timer_start_ T l1 n1).1 = T.set i ⟨clog_hash64_ l1, n1, true⟩ := by
    rw [hstart]
  have hfind2 : clog_timer_find_slot_ ((clogp_timer_start_ T l1 n1).1)
      (clog_hash64_ l2) = some i := by
    rw [hT1, ← hh]
    exact hfind
  have hslot : ((clogp_timer_start_ T l1 n1).1).getD i slot0 =
      ⟨clog_hash64_ l1, n1, true⟩ := by
    rw [hT1]
    exact getD_set_self hlen
  refine ⟨i, hfind2, by rw [hslot], ?_, ?_⟩
  · rw [end_of_found hfind2]
    dsimp only
    rw [hslot]
  · rw [end_of_found hfind2]
    dsimp only
    rw [hslot]

/-- Witness for C9 with equal labels (hence equal hashes) on an empty
16-slot table. -/
theorem claim_C9_witness :
    clog_hash64_ (strB "x") = clog_hash64_ (strB "x") ∧
    (clogp_timer_start_ (List.replicate 16 slot0) (strB "x") 11).2 = none ∧
    (∃ i, clog_timer_find_slot_
        ((clogp_timer_start_ (List.replicate 16 slot0) (strB "x") 11).1)
        (clog_hash64_ (strB "x")) = some i ∧
      (((clogp_timer_start_ (List.replicate 16 slot0) (strB "x") 11).1).getD i slot0).t0 = 11 ∧
      (clogp_timer_end_ ((clogp_timer_start_ (List.replicate 16 slot0) (strB "x") 11).1)
          (strB "x") 25).1 =
        ((clogp_timer_start_ (List.replicate 16 slot0) (strB "x") 11).1).set i
          ⟨clog_hash64_ (strB "x"), 11, false⟩ ∧
      (clogp_timer_end_ ((clogp_timer_start_ (List.replicate 16 slot0) (strB "x") 11).1)
          (strB "x") 25).2 = clog_timer_report_ (clog_u64_sub 25 11) (strB "x")) :=
  ⟨rfl, by decide,
   claim_C9_hash_only_matching (List.replicate 16 slot0) (strB "x") (strB "x") 11 25
     rfl (by decide)⟩

/-- C10: timer-end frees the matched slot before its Debug report passes
the emission gate, so the table update is identical for every threshold,
the slot is marked unused even when the threshold is above Debug, and in
that case the report itself is suppressed (no emission). -/
theorem claim_C10_free_before_gate (T : TimerTable) (label : List Nat) (now i : Nat)
    (frags : List (List Nat)) (buf0 : List Nat)
    (hf : clog_timer_find_slot_ T (clog_hash64_ label) = some i) :
    (∀ t, (clog_timer_end_emit_ t T label now frags buf0).1 =
       (clogp_timer_end_ T label now).1) ∧
    (∀ t, (((clog_timer_end_emit_ t T label now frags buf0).1).getD i slot0).used = false) ∧
    (∀ t, clog_level.DEBUG.toNat < t →
       (clog_timer_end_emit_ t T label now frags buf0).2 = none) := by
  have hlen : i < T.length := (findIdxFrom_some_spec hf slot0).1
  refine ⟨fun t => rfl, ?_, ?_⟩
  · intro t
    show (((clogp_timer_end_ T label now).1).getD i slot0).used = false
    rw [end_of_found hf]
    dsimp only
    rw [getD_set_self hlen]
  · intro t ht
    show clog_emit_ t (clogp_timer_end_ T label now).2.lvl frags
      (clogp_timer_end_ T label now).2.msg buf0 = none
    have hlvl : (clogp_timer_end_ T label now).2.lvl = .DEBUG := by
      rw [end_of_found hf]
      exact report_lvl _ _
    rw [hlvl]
    unfold clog_emit_
    rw [if_pos ht]

/-- Witness for C10: one occupied slot, threshold Info (above Debug). -/
theorem claim_C10_witness :
    clog_timer_find_slot_ [⟨clog_hash64_ (strB "x"), 100, true⟩] (clog_hash64_ (strB "x")) =
      some 0 ∧
    (((clog_timer_end_emit_ 2 [⟨clog_hash64_ (strB "x"), 100, true⟩] (strB "x") 600 [[65]]
        (List.replicate 1024 0)).1).getD 0 slot0).used = false ∧
    (clog_timer_end_emit_ 2 [⟨clog_hash64_ (strB "x"), 100, true⟩] (strB "x") 600 [[65]]
        (List.replicate 1024 0)).2 = none :=
  ⟨by decide,
   (claim_C10_free_before_gate [⟨clog_hash64_ (strB "x"), 100, true⟩] (strB "x") 600 0 [[65]]
     (List.replicate 1024 0) (by decide)).2.1 2,
   (claim_C10_free_before_gate [⟨clog_hash64_ (strB "x"), 100, true⟩] (strB "x") 600 0 [[65]]
     (List.replicate 1024 0) (by decide)).2.2 2 (by decide)⟩
